import Mathlib

/-
Verification of the guigaga core against its natural-language specification.

Shallow embedding of the repository sources:
  src/guigaga/interface.py  (InterfaceBuilder: tree traversal, block creation,
                             run_command, output collection, component mapping)
  src/guigaga/types.py      (InputParamType / OutputParamType, Upload, Download)
  src/guigaga/gui.py        (the gui decorator)
The Logger (guigaga/logger.py) and the Introspector (guigaga/introspect.py)
are part of the repository but their sources are not available here; the
definitions that stand in for them are modelled from the specification and
are marked as such in their doc comments.
-/

namespace Guigaga

/-- Widget descriptors produced by the component mapper.  Each constructor
mirrors one gradio component constructed in interface.py, keeping exactly the
fields the source passes to it.  Slider bounds are rationals so that the
integer-range and float-range branches share the component the way the source
shares gr.Slider. -/
inductive Component where
  | textbox (value : Option String) (label : Option String) (info : Option String)
      (visible : Bool)
  | number (label : String) (precisionZero : Bool) (value : Option String)
      (info : Option String)
  | checkbox (checked : Bool) (label : String) (info : Option String)
  | fileUpload (label : Option String) (value : Option String)
  | fileExplorerComp (label : String) (value : Option String)
  | dropdown (choices : List String) (value : Option String) (label : String)
      (info : Option String)
  | slider (minimum : Rat) (maximum : Rat) (step : Rat) (value : Option String)
      (label : String) (info : Option String)
  | dateTimeComp (value : String) (label : String) (info : Option String)
  deriving DecidableEq, Repr, Inhabited

/-- Metadata carried by an ordinary click parameter type: the type name used
for dispatch in get_component, the choice list, the numeric bounds and the
datetime format list (interface.py lines 211 to 253). -/
structure ClickTypeInfo where
  name : String
  choices : List String
  tmin : Option Rat
  tmax : Option Rat
  formats : List String
  deriving DecidableEq, Repr

/-- Kind of a parameter type.  plain covers ordinary click types handled by
name dispatch; upload is the custom InputParamType of types.py whose render
returns a File component; download is the custom OutputParamType of types.py,
carrying the value slot that Download sets at construction
(types.py line 58, self.value = filename). -/
inductive ParamKind where
  | plain (t : ClickTypeInfo)
  | upload
  | download (value : String)
  deriving DecidableEq, Repr

/-- One option or argument schema.  names holds the flag spellings for an
option (first canonical) or the single name of an argument; defaultCandidates
is the ordered default-candidate sequence of which the first entry is used for
rendering (modelled from the spec, section 3, since introspect.py is not in
the sources at hand). -/
structure ParamSchema where
  names : List String
  isOption : Bool
  defaultCandidates : List String
  required : Bool
  help : Option String
  kind : ParamKind
  deriving DecidableEq, Repr

/-- Leading dashes stripped from a flag spelling, as name[0].lstrip in
interface.py line 200. -/
def lstripDash (s : String) : String := s.dropWhile (· == '-')

/-- Label computed in get_component: for an option the first flag spelling
with dashes stripped, for an argument the name itself
(interface.py lines 199 to 204). -/
def labelOf (schema : ParamSchema) : String :=
  if schema.isOption then lstripDash (schema.names.headD "")
  else schema.names.headD ""

/-- Help text computed in get_component: present only for options
(interface.py lines 199 to 204). -/
def infoOf (schema : ParamSchema) : Option String :=
  if schema.isOption then schema.help else none

/-- First default candidate, as schema.default.values[0][0] guarded by a
non-empty check (interface.py lines 196 to 198). -/
def defaultOf (schema : ParamSchema) : Option String :=
  schema.defaultCandidates.head?

/-- Default datetime format list of interface.py line 250. -/
def defaultFormats : List String :=
  ["%Y-%m-%d", "%Y-%m-%dT%H:%M:%S", "%Y-%m-%d %H:%M:%S"]

/-- Embedding of InterfaceBuilder.get_component (interface.py lines 194 to
256).  freshUuid stands for the uuid4 value generated in the uuid branch and
nowFor for the formatted current time used in the datetime branch; both are
passed in because they are the only non-deterministic inputs of the
function. -/
def get_component (freshUuid : String) (nowFor : String → String)
    (schema : ParamSchema) : Component :=
  let default := defaultOf schema
  match schema.kind with
  | ParamKind.download v => Component.textbox (some v) none none false
  | ParamKind.upload => Component.fileUpload (some (schema.names.headD "")) none
  | ParamKind.plain t =>
    let label := labelOf schema
    let info := infoOf schema
    if t.name = "text" then Component.textbox default (some label) info true
    else if t.name = "integer" then Component.number label true default info
    else if t.name = "float" then Component.number label false default info
    else if t.name = "boolean" then
      Component.checkbox (default = some "true") label info
    else if t.name = "uuid" then
      Component.textbox (some (default.getD freshUuid)) (some label) info true
    else if t.name = "filename" then Component.fileUpload (some label) default
    else if t.name = "path" then Component.fileExplorerComp label default
    else if t.name = "choice" then Component.dropdown t.choices default label info
    else if t.name = "integer range" then
      Component.slider (t.tmin.getD 0) (t.tmax.getD 100) 1 default label info
    else if t.name = "float range" then
      Component.slider (t.tmin.getD 0) (t.tmax.getD 1) (1 / 100) default label info
    else if t.name = "datetime" then
      let formats := if t.formats.isEmpty then defaultFormats else t.formats
      Component.dateTimeComp (default.getD (nowFor (formats.headD ""))) label info
    else Component.textbox default (some label) info true

/-- The options and arguments of one leaf command, as used by create_block,
get_outputs and get_output_values. -/
structure BlockSchema where
  name : String
  options : List ParamSchema
  arguments : List ParamSchema
  deriving DecidableEq, Repr

/-- Value slot of an output-typed parameter, when it has one. -/
def downloadValue (p : ParamSchema) : Option String :=
  match p.kind with
  | ParamKind.download v => some v
  | _ => none

/-- Embedding of InterfaceBuilder.get_outputs (interface.py lines 151 to
156): one rendered File component per output-typed parameter, walking options
then arguments. -/
def get_outputs (bs : BlockSchema) : List Component :=
  (bs.options ++ bs.arguments).filterMap (fun p =>
    match p.kind with
    | ParamKind.download _ => some (Component.fileUpload (some (p.names.headD "")) none)
    | _ => none)

/-- Embedding of InterfaceBuilder.get_output_values (interface.py lines 158
to 163): the current value slot of every output-typed parameter, walking
options then arguments. -/
def get_output_values (bs : BlockSchema) : List String :=
  (bs.options ++ bs.arguments).filterMap downloadValue

/-- Behaviour of one invocation of the underlying callable: the chunks it
writes to its standard output or error channel, in write order; the fault it
raises after those writes, if any; and the values it produces for the
output-typed parameters of the block, in the order those parameters appear.
writes and fault model the callable directly; produced is modelled from the
spec (section 4.4 item 4), since the code that carries a produced value onto
the schema is not among the sources at hand. -/
structure CallBehavior where
  writes : List String
  fault : Option String
  produced : List String
  deriving DecidableEq, Repr

/-- Description of a caught fault as it is appended to the log. -/
def formatError (e : String) : String := "Error: " ++ e

/-- Result of the wrapped generator produced by the Logger: the chunk
sequence it yields, the exit code it records, and the fault it lets
propagate, if any. -/
structure LoggerRun where
  chunks : List String
  exitCode : Nat
  propagated : Option String
  deriving DecidableEq, Repr

/-- Modelled from the spec: Logger.intercept_stdin_stdout
(guigaga/logger.py, not among the sources at hand; spec sections 4.4 items 2
and 3).  The wrapped callable is run under incremental output capture: each
chunk is yielded as soon as written, in write order.  With catch_errors
true, a raised fault is caught, a description of it is appended to the
chunk stream and a nonzero exit code is recorded; with catch_errors false
the fault propagates to the caller after the chunks written before it. -/
def interceptRun (catchErrors : Bool) (call : CallBehavior) : LoggerRun :=
  match call.fault with
  | none => LoggerRun.mk call.writes 0 none
  | some e =>
    if catchErrors then LoggerRun.mk (call.writes ++ [formatError e]) 1 none
    else LoggerRun.mk call.writes 0 (some e)

/-- Accumulation of the log text, as logs_output grows by string
concatenation in run_command (interface.py lines 132 to 135). -/
def accumulateLogs (chunks : List String) : String :=
  chunks.foldl (fun acc c => acc ++ c) ""

/-- One step yielded by run_command: the log so far, the visibility passed to
the Output tab, and the finalized output values, present only on the final
step of a fault-free run (the intermediate yields pass None). -/
structure StepOut where
  logs : String
  outputVisible : Bool
  finalValues : Option (List String)
  deriving DecidableEq, Repr

/-- The yield loop of run_command (interface.py lines 132 to 137): each chunk
is appended to the accumulated log and a step with the log so far, a hidden
Output tab and no output values is yielded. -/
def emitSteps (acc : String) : List String → List StepOut
  | [] => []
  | c :: rest =>
    let acc2 := acc ++ c
    StepOut.mk acc2 false none :: emitSteps acc2 rest

/-- Helper for finalizeBlock: walks a parameter list, replacing each
download value slot with the next produced value; returns the rewritten list
and the produced values left over. -/
def setParamValues : List ParamSchema → List String →
    (List ParamSchema × List String)
  | [], vals => ([], vals)
  | p :: rest, vals =>
    match p.kind with
    | ParamKind.download _ =>
      match vals with
      | v :: vrest =>
        let r := setParamValues rest vrest
        (ParamSchema.mk p.names p.isOption p.defaultCandidates p.required p.help
          (ParamKind.download v) :: r.1, r.2)
      | [] =>
        let r := setParamValues rest []
        (p :: r.1, r.2)
    | _ =>
      let r := setParamValues rest vals
      (p :: r.1, r.2)

/-- Modelled from the spec: on normal completion every output-typed
parameter has its value slot set to the value the callable produced for it
(spec section 4.4 item 4; the mutation itself lives in code not among the
sources at hand, while get_output_values in interface.py reads the slots
back).  The slots are walked in the order options then arguments, the order
get_output_values uses. -/
def finalizeBlock (bs : BlockSchema) (vals : List String) : BlockSchema :=
  let ro := setParamValues bs.options vals
  let ra := setParamValues bs.arguments ro.2
  BlockSchema.mk bs.name ro.1 ra.1

/-- Outcome of one run of a block: the steps run_command yielded, the fault
that propagated out of it (catch_errors false only), the exit code the
logger recorded, and the block schema as left behind by the run, its shared
value slots updated only on fault-free completion. -/
structure RunResult where
  steps : List StepOut
  raised : Option String
  exitCode : Nat
  blockAfter : BlockSchema
  deriving DecidableEq, Repr

/-- Embedding of run_command (interface.py lines 127 to 145).  The wrapped
generator of the Logger is drained chunk by chunk, yielding the accumulated
log with a hidden Output tab; a propagating fault ends the run after the
chunks written before it; a recorded nonzero exit code ends the run without
a further yield (the trailing return of a generator yields nothing); on
fault-free completion a final step is yielded whose Output tab is visible
exactly when get_outputs is non-empty and which carries the finalized
output values read back by get_output_values. -/
def runCommand (catchErrors : Bool) (bs : BlockSchema) (call : CallBehavior) :
    RunResult :=
  let lr := interceptRun catchErrors call
  let loopSteps := emitSteps "" lr.chunks
  match lr.propagated with
  | some e => RunResult.mk loopSteps (some e) lr.exitCode bs
  | none =>
    if lr.exitCode ≠ 0 then RunResult.mk loopSteps none lr.exitCode bs
    else
      let finalized := finalizeBlock bs call.produced
      let renderOutputs := !(get_outputs bs).isEmpty
      RunResult.mk
        (loopSteps ++
          [StepOut.mk (accumulateLogs lr.chunks) renderOutputs
            (some (get_output_values finalized))])
        none lr.exitCode finalized

/-- One node of the command schema tree: its name, its docstring and its
subcommands in the declaration order captured by the introspector
(CommandSchema of guigaga/introspect.py, restricted to the fields
traverse_command_tree consults). -/
inductive CommandTree where
  | node (name : String) (docstring : String) (subcommands : List CommandTree)
  deriving Repr

/-- Name of a command tree node. -/
def CommandTree.name : CommandTree → String
  | CommandTree.node n _ _ => n

/-- Subcommand list of a command tree node. -/
def CommandTree.subcommands : CommandTree → List CommandTree
  | CommandTree.node _ _ s => s

/-- Presentation node built by traverse_command_tree: a leaf Block built by
create_block, a TabbedInterface over named children, or the root Blocks that
prepends the title and version header above the tabbed container
(interface.py lines 73 to 80). -/
inductive PNode where
  | block (name : String)
  | tabbed (tabs : List (String × PNode))
  | rootBlocks (header : String) (tabs : List (String × PNode))
  deriving Repr

/-- Construction-time configuration of the InterfaceBuilder consulted by the
traversal: the reserved launcher command name, the cli name and the resolved
package version. -/
structure BuilderCfg where
  commandName : String
  cliName : String
  version : Option String
  deriving DecidableEq, Repr

/-- Markdown header text of the root Blocks (interface.py lines 75 to 76). -/
def headerText (cfg : BuilderCfg) (doc : String) : String :=
  let ver := match cfg.version with
    | some v => " (v" ++ v ++ ")"
    | none => ""
  "# " ++ cfg.cliName.toUpper ++ ver ++ "\n" ++ doc

/-- Entry produced by create_block for one leaf schema: the pair of the
schema name and its Block (interface.py line 149 returns
command_schema.name, block). -/
def createBlockEntry (s : CommandTree) : String × PNode :=
  (s.name, PNode.block s.name)

/-- Message of the ValueError raised when no block could be collected
(interface.py lines 84 to 85). -/
def interfaceErrorMsg : String := "Could not create interface for command schema."

mutual

/-- Embedding of InterfaceBuilder.traverse_command_tree (interface.py lines
49 to 85).  A schema without subcommands contributes its own block; otherwise
the subcommands are processed in declaration order by traverseSubcommands.
More than one collected entry is wrapped in a TabbedInterface, with the
title header prepended when the schema is named root; exactly one entry is
returned directly; zero entries raise ValueError. -/
def traverseCommandTree (cfg : BuilderCfg) : CommandTree → Except String PNode
  | CommandTree.node name doc subs =>
    let collected :=
      if subs.isEmpty then
        Except.ok [createBlockEntry (CommandTree.node name doc subs)]
      else traverseSubcommands cfg subs
    match collected with
    | Except.error e => Except.error e
    | Except.ok tabBlocks =>
      if 1 < tabBlocks.length then
        if name = "root" then
          Except.ok (PNode.rootBlocks (headerText cfg doc) tabBlocks)
        else Except.ok (PNode.tabbed tabBlocks)
      else
        match tabBlocks with
        | [entry] => Except.ok entry.2
        | _ => Except.error interfaceErrorMsg

/-- The subcommand loop of traverse_command_tree (interface.py lines 58 to
67): a subcommand named like the reserved launcher command is skipped; a
subcommand with nested commands is traversed recursively and collected under
its name; any other subcommand contributes its block. -/
def traverseSubcommands (cfg : BuilderCfg) :
    List CommandTree → Except String (List (String × PNode))
  | [] => Except.ok []
  | sub :: rest =>
    if sub.name = cfg.commandName then traverseSubcommands cfg rest
    else if sub.subcommands.isEmpty then
      match traverseSubcommands cfg rest with
      | Except.ok restEntries => Except.ok (createBlockEntry sub :: restEntries)
      | Except.error e => Except.error e
    else
      match traverseCommandTree cfg sub with
      | Except.ok si =>
        match traverseSubcommands cfg rest with
        | Except.ok restEntries => Except.ok ((sub.name, si) :: restEntries)
        | Except.error e => Except.error e
      | Except.error e => Except.error e

end

/-- Default component used only to express lookups with a fallback in
theorem statements. -/
def cDefault : Component := Component.textbox none none none false

/-- Embedding of InterfaceBuilder.sort_schemas (interface.py lines 188 to
192).  paramNames stands for co_varnames up to co_argcount of the underlying
callable, its positional parameter order; schemas is the name-keyed mapping
of rendered components gathered from the widgets, modelled as an association
list; the result keeps, for each parameter name in positional order that has
a binding, the bound component. -/
def sort_schemas (paramNames : List String)
    (schemas : List (String × Component)) : List Component :=
  paramNames.filterMap (fun n => schemas.lookup n)

/-- A click application object as the gui decorator sees it: a command with
a name (the launcher flag marks the wrapped_gui launcher command the
decorator registers), or a group with an optional name and its registered
commands in registration order. -/
inductive ClickApp where
  | cmd (name : String) (launcher : Bool)
  | group (name : Option String) (commands : List ClickApp)
  deriving Repr

/-- Default of the command_name argument of gui (gui.py line 25). -/
def guiDefaultCommandName : String := "gui"

/-- Embedding of the dispatch at the end of the gui decorator (gui.py lines
89 to 98).  On a group the launcher command is registered on that same group,
which is returned; on a bare command a fresh unnamed group is created, the
original command is added, the launcher is registered and the new group is
returned. -/
def gui_decorate (command_name : String) (app : ClickApp) : ClickApp :=
  match app with
  | ClickApp.group n cmds =>
    ClickApp.group n (cmds ++ [ClickApp.cmd command_name true])
  | ClickApp.cmd n fl =>
    ClickApp.group none [ClickApp.cmd n fl, ClickApp.cmd command_name true]

/-- The increasing concatenations of a chunk list: element i is the
concatenation of the first i plus one chunks.  Used to state the streaming
claims about run_command. -/
def prefixConcats : List String → List String
  | [] => []
  | c :: rest => c :: (prefixConcats rest).map (fun s => c ++ s)

/-- Concatenation of all chunks. -/
def concatChunks : List String → String
  | [] => ""
  | c :: rest => c ++ concatChunks rest

/-- A presentation tree in which every tabbed container, at every level,
holds at least two tabs. -/
inductive NoSingleTab : PNode → Prop where
  | block : ∀ n, NoSingleTab (PNode.block n)
  | tabbed : ∀ tabs, 1 < tabs.length →
      (∀ p ∈ tabs, NoSingleTab p.2) → NoSingleTab (PNode.tabbed tabs)
  | rootBlocks : ∀ h tabs, 1 < tabs.length →
      (∀ p ∈ tabs, NoSingleTab p.2) → NoSingleTab (PNode.rootBlocks h tabs)

lemma emitSteps_map_logs (l : List String) :
    ∀ acc, (emitSteps acc l).map StepOut.logs
      = (prefixConcats l).map (fun s => acc ++ s) := by
  induction l with
  | nil => intro acc; rfl
  | cons c rest ih =>
    intro acc
    simp [emitSteps, prefixConcats, ih, List.map_map, Function.comp,
      String.append_assoc]

lemma prefixConcats_length (l : List String) :
    (prefixConcats l).length = l.length := by
  induction l <;> simp [prefixConcats, *]

lemma prefixConcats_get? (l : List String) :
    ∀ i, i < l.length →
      (prefixConcats l)[i]? = some (concatChunks (l.take (i + 1))) := by
  induction l with
  | nil => intro i h; simp at h
  | cons c rest ih =>
    intro i h
    cases i with
    | zero => simp [prefixConcats, concatChunks, String.append_empty]
    | succ j =>
      have hj : j < rest.length := by simpa using h
      simp [prefixConcats, ih j hj, concatChunks]

lemma foldl_append_concat (l : List String) :
    ∀ acc, l.foldl (fun a c => a ++ c) acc = acc ++ concatChunks l := by
  induction l with
  | nil => intro acc; simp [concatChunks, String.append_empty]
  | cons c rest ih => intro acc; simp [concatChunks, ih, String.append_assoc]

lemma accumulateLogs_eq (l : List String) :
    accumulateLogs l = concatChunks l := by
  simp [accumulateLogs, foldl_append_concat, String.empty_append]

/-- Claim C1: for every fault-free run of the execution wrapper, the log
values carried by the steps are exactly the increasing concatenations of the
chunks the callable wrote, in write order, followed by the completion step
that repeats the full log; the log value of step i is the concatenation of
the first i plus one chunks, so chunks are never reordered and never
skipped. -/
theorem C1_streaming_log_order (ce : Bool) (bs : BlockSchema)
    (call : CallBehavior) (h : call.fault = none) :
    (runCommand ce bs call).steps.map StepOut.logs
        = prefixConcats call.writes ++ [concatChunks call.writes]
      ∧ ∀ i, i < call.writes.length →
        (prefixConcats call.writes)[i]? =
          some (concatChunks (call.writes.take (i + 1))) := by
  constructor
  · simp [runCommand, interceptRun, h, emitSteps_map_logs, accumulateLogs_eq,
      String.empty_append]
  · intro i hi
    exact prefixConcats_get? call.writes i hi

/-- Witness for C1: a callable that writes X then Y yields the log states
X, XY and the completion step carrying XY again. -/
theorem C1_streaming_log_order_witness :
    (runCommand true (BlockSchema.mk "rc" [] [])
        (CallBehavior.mk ["X", "Y"] none [])).steps.map StepOut.logs
      = ["X", "XY", "XY"] := by
  have h := (C1_streaming_log_order true (BlockSchema.mk "rc" [] [])
    (CallBehavior.mk ["X", "Y"] none []) rfl).1
  rw [h]
  rfl

lemma emitSteps_mem (l : List String) :
    ∀ acc st, st ∈ emitSteps acc l →
      st.outputVisible = false ∧ st.finalValues = none := by
  induction l with
  | nil => intro acc st h; simp [emitSteps] at h
  | cons c rest ih =>
    intro acc st h
    simp only [emitSteps, List.mem_cons] at h
    rcases h with h | h
    · subst h; exact ⟨rfl, rfl⟩
    · exact ih _ st h

/-- Example block with no parameters. -/
def bsEx0 : BlockSchema := BlockSchema.mk "rc" [] []

/-- Example output-typed argument, a Download constructed with the filename
out.txt. -/
def pOut : ParamSchema :=
  ParamSchema.mk ["output"] false [] false none (ParamKind.download "out.txt")

/-- Example block with one output-typed argument. -/
def bsEx1 : BlockSchema := BlockSchema.mk "cmd" [] [pOut]

/-- Example callable behaviour: writes X, raises the fault boom. -/
def callBoom : CallBehavior := CallBehavior.mk ["X"] (some "boom") []

/-- Example callable behaviour: writes X, completes, produces res.txt for
the output parameter. -/
def callOk : CallBehavior := CallBehavior.mk ["X"] none ["res.txt"]

/-- Claim C2: the error policy is fixed by the catch_errors flag of the
interface construction.  With catch_errors true a fault is caught: nothing
propagates, a nonzero exit code is recorded, the yielded log states are the
increasing concatenations of the written chunks extended by the formatted
fault description, and no step carries finalized outputs.  With catch_errors
false the same fault propagates unchanged and the sequence ends abnormally
after the chunks written before the fault. -/
theorem C2_error_policy (bs : BlockSchema) (call : CallBehavior) (e : String)
    (h : call.fault = some e) :
    ((runCommand true bs call).raised = none
        ∧ (runCommand true bs call).exitCode ≠ 0
        ∧ (runCommand true bs call).steps.map StepOut.logs
            = prefixConcats (call.writes ++ [formatError e])
        ∧ ∀ st ∈ (runCommand true bs call).steps, st.finalValues = none)
      ∧ (runCommand false bs call).raised = some e
      ∧ (runCommand false bs call).steps.map StepOut.logs
          = prefixConcats call.writes := by
  refine ⟨⟨?_, ?_, ?_, ?_⟩, ?_, ?_⟩
  · simp [runCommand, interceptRun, h]
  · simp [runCommand, interceptRun, h]
  · simp [runCommand, interceptRun, h, emitSteps_map_logs, String.empty_append]
  · intro st hst
    simp only [runCommand, interceptRun, h, if_pos] at hst
    simp at hst
    exact (emitSteps_mem _ _ st hst).2
  · simp [runCommand, interceptRun, h]
  · simp [runCommand, interceptRun, h, emitSteps_map_logs, String.empty_append]

/-- Witness for C2 at a concrete faulting callable. -/
theorem C2_error_policy_witness :
    (runCommand true bsEx0 callBoom).raised = none
      ∧ (runCommand true bsEx0 callBoom).exitCode ≠ 0
      ∧ (runCommand false bsEx0 callBoom).raised = some "boom" := by
  have h := C2_error_policy bsEx0 callBoom "boom" rfl
  exact ⟨h.1.1, h.1.2.1, h.2.1⟩

lemma setParamValues_spec (ps : List ParamSchema) :
    ∀ vals : List String,
      (ps.filterMap downloadValue).length ≤ vals.length →
        (setParamValues ps vals).1.filterMap downloadValue
            = vals.take (ps.filterMap downloadValue).length
          ∧ (setParamValues ps vals).2
            = vals.drop (ps.filterMap downloadValue).length := by
  induction ps with
  | nil => intro vals h; simp [setParamValues]
  | cons p rest ih =>
    intro vals h
    cases hk : p.kind with
    | download v =>
      cases vals with
      | nil =>
        simp [List.filterMap_cons, downloadValue, hk] at h
      | cons w wrest =>
        have hlen : (rest.filterMap downloadValue).length ≤ wrest.length := by
          simp [List.filterMap_cons, downloadValue, hk] at h
          omega
        have hr := ih wrest hlen
        simp [setParamValues, hk, List.filterMap_cons, downloadValue, hr.1, hr.2]
    | plain t =>
      have hlen : (rest.filterMap downloadValue).length ≤ vals.length := by
        simp [List.filterMap_cons, downloadValue, hk] at h
        exact h
      have hr := ih vals hlen
      simp [setParamValues, hk, List.filterMap_cons, downloadValue, hr.1, hr.2]
    | upload =>
      have hlen : (rest.filterMap downloadValue).length ≤ vals.length := by
        simp [List.filterMap_cons, downloadValue, hk] at h
        exact h
      have hr := ih vals hlen
      simp [setParamValues, hk, List.filterMap_cons, downloadValue, hr.1, hr.2]

lemma get_output_values_finalize (bs : BlockSchema) (vals : List String)
    (h : (get_output_values bs).length = vals.length) :
    get_output_values (finalizeBlock bs vals) = vals := by
  have hsplit : (get_output_values bs).length
      = (bs.options.filterMap downloadValue).length
        + (bs.arguments.filterMap downloadValue).length := by
    simp [get_output_values, List.filterMap_append]
  have h1 : (bs.options.filterMap downloadValue).length ≤ vals.length := by omega
  have ho := setParamValues_spec bs.options vals h1
  have hdlen : ((vals.drop (bs.options.filterMap downloadValue).length)).length
      = (bs.arguments.filterMap downloadValue).length := by
    simp [List.length_drop]
    omega
  have h2 : (bs.arguments.filterMap downloadValue).length
      ≤ ((vals.drop (bs.options.filterMap downloadValue).length)).length := by
    omega
  have ha := setParamValues_spec bs.arguments
    (vals.drop (bs.options.filterMap downloadValue).length) h2
  simp [finalizeBlock, get_output_values, List.filterMap_append, ho.1, ho.2,
    ha.1]
  rw [hdlen.symm, List.take_length]
  exact List.take_append_drop _ vals

/-- Claim C3: the final emitted step of a run reports a visible output tab
exactly when the run completed without a recorded fault and the block has at
least one output-typed parameter; on fault-free completion the final step
carries the output values finalized to what the callable produced; on a
caught fault every emitted step hides the output tab, carries no finalized
values, and the value slots of the block are left untouched. -/
theorem C3_final_step_outputs :
    (∀ ce bs call, call.fault = none →
        (runCommand ce bs call).steps.getLast?
          = some (StepOut.mk (concatChunks call.writes)
              (!(get_outputs bs).isEmpty)
              (some (get_output_values (finalizeBlock bs call.produced)))))
      ∧ (∀ bs vals, (get_output_values bs).length = vals.length →
          get_output_values (finalizeBlock bs vals) = vals)
      ∧ (∀ bs call e, call.fault = some e →
          (∀ st ∈ (runCommand true bs call).steps,
              st.outputVisible = false ∧ st.finalValues = none)
            ∧ (runCommand true bs call).blockAfter = bs) := by
  refine ⟨?_, ?_, ?_⟩
  · intro ce bs call h
    simp [runCommand, interceptRun, h, accumulateLogs_eq]
  · intro bs vals h
    exact get_output_values_finalize bs vals h
  · intro bs call e h
    constructor
    · intro st hst
      simp only [runCommand, interceptRun, h, if_pos] at hst
      simp at hst
      exact emitSteps_mem _ _ st hst
    · simp [runCommand, interceptRun, h]

/-- Witness for C3: a block with one output parameter and a fault-free
callable producing res.txt yields a final step with a visible output tab
carrying res.txt; a block with no output parameter yields a final step with
a hidden output tab; on a caught fault the block is untouched. -/
theorem C3_final_step_outputs_witness :
    (runCommand true bsEx1 callOk).steps.getLast?
        = some (StepOut.mk "X" true (some ["res.txt"]))
      ∧ (runCommand true bsEx0 callOk).steps.getLast?
        = some (StepOut.mk "X" false (some []))
      ∧ (runCommand true bsEx1 callBoom).blockAfter = bsEx1 := by
  refine ⟨?_, ?_, ?_⟩
  · have h := C3_final_step_outputs.1 true bsEx1 callOk rfl
    rw [h]
    rfl
  · have h := C3_final_step_outputs.1 true bsEx0 callOk rfl
    rw [h]
    rfl
  · exact (C3_final_step_outputs.2.2 bsEx1 callBoom "boom" rfl).2

/-- Example builder configuration: launcher name gui, cli name app, no
version. -/
def cfgEx : BuilderCfg := BuilderCfg.mk "gui" "app" none

/-- Example leaf command a. -/
def leafA : CommandTree := CommandTree.node "a" "" []

/-- Example leaf command b. -/
def leafB : CommandTree := CommandTree.node "b" "" []

lemma traverseSubcommands_labels (cfg : BuilderCfg) (l : List CommandTree) :
    ∀ entries, traverseSubcommands cfg l = Except.ok entries →
      entries.map Prod.fst
        = (l.filter (fun s => s.name ≠ cfg.commandName)).map CommandTree.name := by
  induction l with
  | nil =>
    intro entries h
    simp only [traverseSubcommands] at h
    cases h
    simp
  | cons sub rest ih =>
    intro entries h
    simp only [traverseSubcommands] at h
    by_cases hn : sub.name = cfg.commandName
    · rw [if_pos hn] at h
      simp [List.filter_cons, hn, ih entries h]
    · rw [if_neg hn] at h
      by_cases hemp : sub.subcommands.isEmpty
      · rw [if_pos hemp] at h
        cases hr : traverseSubcommands cfg rest with
        | error e => rw [hr] at h; cases h
        | ok restEntries =>
          rw [hr] at h
          cases h
          simp [List.filter_cons, hn, createBlockEntry, ih restEntries hr]
      · rw [if_neg hemp] at h
        cases ht : traverseCommandTree cfg sub with
        | error e => rw [ht] at h; cases h
        | ok si =>
          rw [ht] at h
          cases hr : traverseSubcommands cfg rest with
          | error e => rw [hr] at h; cases h
          | ok restEntries =>
            rw [hr] at h
            cases h
            simp [List.filter_cons, hn, ih restEntries hr]

/-- Claim C4: when the visible entries collected for a schema with
subcommands number more than one, the traversal wraps exactly them in one
TabbedInterface, prepending the title and version header when the schema is
the root, and the tab labels are the subcommand names in declaration order
with only launcher-named children removed and no resorting. -/
theorem C4_tabbed_order (cfg : BuilderCfg) (name doc : String)
    (subs : List CommandTree) (entries : List (String × PNode))
    (hne : subs ≠ [])
    (hok : traverseSubcommands cfg subs = Except.ok entries)
    (hlen : 1 < entries.length) :
    traverseCommandTree cfg (CommandTree.node name doc subs)
        = Except.ok (if name = "root"
            then PNode.rootBlocks (headerText cfg doc) entries
            else PNode.tabbed entries)
      ∧ entries.map Prod.fst
        = (subs.filter (fun s => s.name ≠ cfg.commandName)).map CommandTree.name := by
  have hemp : subs.isEmpty = false := by
    cases subs with
    | nil => exact absurd rfl hne
    | cons a t => rfl
  constructor
  · simp only [traverseCommandTree, hemp, Bool.false_eq_true, if_false, hok,
      if_pos hlen]
    by_cases hroot : name = "root"
    · simp [hroot]
    · simp [hroot]
  · exact traverseSubcommands_labels cfg subs entries hok

/-- Witness for C4: a root group with the two leaves a and b yields the
header Blocks over a two-tab container labelled a then b. -/
theorem C4_tabbed_order_witness :
    traverseCommandTree cfgEx (CommandTree.node "root" "d" [leafA, leafB])
        = Except.ok (PNode.rootBlocks (headerText cfgEx "d")
            [("a", PNode.block "a"), ("b", PNode.block "b")])
      ∧ [("a", PNode.block "a"), ("b", PNode.block "b")].map Prod.fst
        = ["a", "b"] := by
  have h := C4_tabbed_order cfgEx "root" "d" [leafA, leafB]
    [("a", PNode.block "a"), ("b", PNode.block "b")]
    (by simp) rfl (by simp)
  exact ⟨by simpa using h.1, by simp⟩

lemma traverse_noSingleTab (cfg : BuilderCfg) :
    ∀ n : Nat,
      (∀ s : CommandTree, sizeOf s ≤ n → ∀ r,
          traverseCommandTree cfg s = Except.ok r → NoSingleTab r)
        ∧ (∀ l : List CommandTree, sizeOf l ≤ n →
            ∀ entries, traverseSubcommands cfg l = Except.ok entries →
              ∀ p ∈ entries, NoSingleTab p.2) := by
  intro n
  induction n using Nat.strong_induction_on with
  | _ n ih =>
    constructor
    · intro s hs r hr
      cases s with
      | node name doc subs =>
        have hlt : sizeOf subs < n := by
          have : sizeOf subs < sizeOf (CommandTree.node name doc subs) := by
            simp
          omega
        cases hemp : subs.isEmpty with
        | true =>
          simp only [traverseCommandTree, hemp, if_true] at hr
          simp [createBlockEntry] at hr
          rw [hr.symm]
          exact NoSingleTab.block name
        | false =>
          simp only [traverseCommandTree, hemp, Bool.false_eq_true, if_false] at hr
          cases hcol : traverseSubcommands cfg subs with
          | error e => rw [hcol] at hr; cases hr
          | ok entries =>
            rw [hcol] at hr
            dsimp only at hr
            have hmem := (ih (sizeOf subs) hlt).2 subs (le_refl _) entries hcol
            by_cases hlen : 1 < entries.length
            · rw [if_pos hlen] at hr
              by_cases hroot : name = "root"
              · rw [if_pos hroot] at hr
                cases hr
                exact NoSingleTab.rootBlocks _ entries hlen hmem
              · rw [if_neg hroot] at hr
                cases hr
                exact NoSingleTab.tabbed entries hlen hmem
            · rw [if_neg hlen] at hr
              cases entries with
              | nil => cases hr
              | cons e tail =>
                cases tail with
                | nil =>
                  cases hr
                  exact hmem e (List.mem_cons_self e [])
                | cons e2 t2 => cases hr
    · intro l hl entries he p hp
      cases l with
      | nil =>
        simp only [traverseSubcommands] at he
        cases he
        simp at hp
      | cons sub rest =>
        have hsub : sizeOf sub < n := by
          have : sizeOf sub < sizeOf (sub :: rest) := by
            simp
            omega
          omega
        have hrest : sizeOf rest < n := by
          have : sizeOf rest < sizeOf (sub :: rest) := by
            simp
          omega
        simp only [traverseSubcommands] at he
        by_cases hn : sub.name = cfg.commandName
        · rw [if_pos hn] at he
          exact (ih (sizeOf rest) hrest).2 rest (le_refl _) entries he p hp
        · rw [if_neg hn] at he
          by_cases hemp : sub.subcommands.isEmpty
          · rw [if_pos hemp] at he
            cases hr : traverseSubcommands cfg rest with
            | error e => rw [hr] at he; cases he
            | ok restEntries =>
              rw [hr] at he
              cases he
              rcases List.mem_cons.mp hp with hpe | hpe
              · rw [hpe]
                exact NoSingleTab.block sub.name
              · exact (ih (sizeOf rest) hrest).2 rest (le_refl _) restEntries hr
                  p hpe
          · rw [if_neg hemp] at he
            cases ht : traverseCommandTree cfg sub with
            | error e => rw [ht] at he; cases he
            | ok si =>
              rw [ht] at he
              cases hr : traverseSubcommands cfg rest with
              | error e => rw [hr] at he; cases he
              | ok restEntries =>
                rw [hr] at he
                cases he
                rcases List.mem_cons.mp hp with hpe | hpe
                · rw [hpe]
                  exact (ih (sizeOf sub) hsub).1 sub (le_refl _) si ht
                · exact (ih (sizeOf rest) hrest).2 rest (le_refl _) restEntries
                    hr p hpe

/-- Claim C5: a schema whose collected list has exactly one entry is
returned as that entry directly, without a tab wrapper, and every
presentation tree the traversal builds has no single-tab container at any
level. -/
theorem C5_single_entry_elision :
    (∀ cfg name doc subs e, subs ≠ [] →
        traverseSubcommands cfg subs = Except.ok [e] →
        traverseCommandTree cfg (CommandTree.node name doc subs)
          = Except.ok e.2)
      ∧ (∀ cfg s r, traverseCommandTree cfg s = Except.ok r → NoSingleTab r) := by
  constructor
  · intro cfg name doc subs e hne hok
    have hemp : subs.isEmpty = false := by
      cases subs with
      | nil => exact absurd rfl hne
      | cons a t => rfl
    simp [traverseCommandTree, hemp, hok]
  · intro cfg s r hr
    exact (traverse_noSingleTab cfg (sizeOf s)).1 s (le_refl _) r hr

/-- Witness for C5: a group with the single visible leaf a elides the tab
wrapper and returns the block of a directly. -/
theorem C5_single_entry_elision_witness :
    traverseCommandTree cfgEx (CommandTree.node "g" "" [leafA])
      = Except.ok (PNode.block "a") := by
  have h := C5_single_entry_elision.1 cfgEx "g" "" [leafA]
    ("a", PNode.block "a") (by simp) rfl
  simpa using h

lemma traverseSubcommands_all_launcher (cfg : BuilderCfg) :
    ∀ l : List CommandTree, (∀ s ∈ l, s.name = cfg.commandName) →
      traverseSubcommands cfg l = Except.ok [] := by
  intro l
  induction l with
  | nil => intro _; rfl
  | cons sub rest ih =>
    intro hall
    have hn : sub.name = cfg.commandName := hall sub (List.mem_cons_self sub rest)
    simp only [traverseSubcommands, if_pos hn]
    exact ih (fun s hs => hall s (List.mem_cons_of_mem sub hs))

/-- Counterexample for C6: a group schema with no children at all does not
fail; the traversal treats it like a leaf and returns a block for it. -/
theorem C6_counterexample :
    traverseCommandTree cfgEx (CommandTree.node "g" "" [])
        = Except.ok (PNode.block "g")
      ∧ ∀ msg, traverseCommandTree cfgEx (CommandTree.node "g" "" [])
        ≠ Except.error msg := by
  constructor
  · rfl
  · intro msg h
    rw [show traverseCommandTree cfgEx (CommandTree.node "g" "" [])
      = Except.ok (PNode.block "g") from rfl] at h
    cases h

/-- Claim C6 as amended: a schema with at least one subcommand all of which
carry the reserved launcher command name collects no visible entry and the
traversal fails with the construction error; a schema with no subcommands at
all is instead handled as a leaf and yields its own block. -/
theorem C6_empty_tree_fails (cfg : BuilderCfg) (name doc : String)
    (subs : List CommandTree) (hne : subs ≠ [])
    (hall : ∀ s ∈ subs, s.name = cfg.commandName) :
    traverseCommandTree cfg (CommandTree.node name doc subs)
      = Except.error interfaceErrorMsg := by
  have hemp : subs.isEmpty = false := by
    cases subs with
    | nil => exact absurd rfl hne
    | cons a t => rfl
  simp [traverseCommandTree, hemp, traverseSubcommands_all_launcher cfg subs hall]

/-- Witness for the amended C6: a group whose only subcommand carries the
launcher name gui fails with the construction error. -/
theorem C6_empty_tree_fails_witness :
    traverseCommandTree cfgEx (CommandTree.node "g" "" [CommandTree.node "gui" "" []])
      = Except.error interfaceErrorMsg := by
  exact C6_empty_tree_fails cfgEx "g" "" [CommandTree.node "gui" "" []]
    (by simp)
    (by
      intro s hs
      simp at hs
      rw [hs]
      rfl)

/-- Example component bound to the name x. -/
def compX : Component := Component.checkbox true "x" none

/-- Example component bound to the name y. -/
def compY : Component := Component.checkbox false "y" none

/-- Example widget mapping listing x before y. -/
def slXY : List (String × Component) := [("x", compX), ("y", compY)]

/-- Example widget mapping listing y before x: the same bindings gathered in
the other iteration order. -/
def slYX : List (String × Component) := [("y", compY), ("x", compX)]

/-- Claim C7: sort_schemas reorders the name-keyed component mapping into
the positional parameter order of the underlying callable: the result is the
same for any two mappings with the same bindings, independent of iteration
order, and when every positional parameter name is bound the result lists
the bound components exactly in the declared positional order. -/
theorem C7_positional_reorder :
    (∀ (order : List String) (s1 s2 : List (String × Component)),
        (∀ n, s1.lookup n = s2.lookup n) →
        sort_schemas order s1 = sort_schemas order s2)
      ∧ (∀ (order : List String) (s : List (String × Component)),
          (∀ n ∈ order, (s.lookup n).isSome) →
          sort_schemas order s
            = order.map (fun n => (s.lookup n).getD cDefault)) := by
  constructor
  · intro order s1 s2 h
    induction order with
    | nil => rfl
    | cons a t ih =>
      simp only [sort_schemas, List.filterMap_cons] at ih ⊢
      rw [h a, ih]
  · intro order s
    induction order with
    | nil => intro h; rfl
    | cons a t ih =>
      intro h
      have ha := h a (List.mem_cons_self a t)
      obtain ⟨c, hc⟩ := Option.isSome_iff_exists.mp ha
      have ht := ih (fun n hn => h n (List.mem_cons_of_mem a hn))
      simp only [sort_schemas, List.filterMap_cons, List.map_cons] at ht ⊢
      rw [hc, ht]
      simp [hc]

/-- Witness for C7: the bindings x and y gathered in either order sort into
the positional order x then y of the callable. -/
theorem C7_positional_reorder_witness :
    sort_schemas ["x", "y"] slXY = sort_schemas ["x", "y"] slYX
      ∧ sort_schemas ["x", "y"] slXY
        = ["x", "y"].map (fun n => (slXY.lookup n).getD cDefault) := by
  constructor
  · refine C7_positional_reorder.1 ["x", "y"] slXY slYX ?_
    intro n
    by_cases hx : n = "x"
    · subst hx; rfl
    · by_cases hy : n = "y"
      · subst hy; rfl
      · have hx2 : (n == "x") = false := by
          simp [hx]
        have hy2 : (n == "y") = false := by
          simp [hy]
        simp [slXY, slYX, List.lookup, hx2, hy2]
  · refine C7_positional_reorder.2 ["x", "y"] slXY ?_
    intro n hn
    simp only [List.mem_cons, List.not_mem_nil, or_false] at hn
    rcases hn with h | h <;> subst h <;> rfl

/-- Counterexample for C8: the value slot of an output-typed parameter is
populated at construction (Download init stores the filename) and is read at
render time by get_component, before any execution of the block has run; and
a fault-free run writes its produced value into the slot carried by the
block schema itself, where later renders and runs of the same block observe
it. -/
theorem C8_counterexample :
    get_component "u" (fun _ => "now") pOut
        = Component.textbox (some "out.txt") none none false
      ∧ get_output_values bsEx1 = ["out.txt"]
      ∧ (runCommand true bsEx1 callOk).blockAfter
        = BlockSchema.mk "cmd" []
            [ParamSchema.mk ["output"] false [] false none
              (ParamKind.download "res.txt")]
      ∧ get_component "u" (fun _ => "now")
          (ParamSchema.mk ["output"] false [] false none
            (ParamKind.download "res.txt"))
        = Component.textbox (some "res.txt") none none false := by
  exact ⟨rfl, rfl, rfl, rfl⟩

/-- Claim C8 as amended: the value slot of an output-typed parameter lives
on the schema shared by every render and every execution of the block: the
rendered hidden widget always shows the current slot value, and a fault-free
run leaves its produced values in the slots of the block schema, where any
later observer of the same block reads them. -/
theorem C8_shared_value_slot :
    (∀ (u : String) (nf : String → String) (schema : ParamSchema) (v : String),
        schema.kind = ParamKind.download v →
        get_component u nf schema = Component.textbox (some v) none none false)
      ∧ (∀ ce bs call, call.fault = none →
          (get_output_values bs).length = call.produced.length →
          get_output_values ((runCommand ce bs call).blockAfter)
            = call.produced) := by
  constructor
  · intro u nf schema v hk
    simp [get_component, hk]
  · intro ce bs call hf hlen
    simp only [runCommand, interceptRun, hf]
    simp
    exact get_output_values_finalize bs call.produced hlen

/-- Witness for the amended C8 at a concrete block and run. -/
theorem C8_shared_value_slot_witness :
    get_component "u" (fun _ => "now") pOut
        = Component.textbox (some "out.txt") none none false
      ∧ get_output_values ((runCommand true bsEx1 callOk).blockAfter)
        = ["res.txt"] := by
  constructor
  · exact C8_shared_value_slot.1 "u" (fun _ => "now") pOut "out.txt" rfl
  · exact C8_shared_value_slot.2 true bsEx1 callOk rfl rfl

/-- Claim C9: an integer-range parameter with no declared bounds renders as
a slider with minimum 0, maximum 100 and step 1; with declared bounds the
slider uses exactly those bounds, still with step 1. -/
theorem C9_integer_range_slider (u : String) (nf : String → String)
    (schema : ParamSchema) (t : ClickTypeInfo)
    (hk : schema.kind = ParamKind.plain t) (hn : t.name = "integer range") :
    (t.tmin = none → t.tmax = none →
        get_component u nf schema
          = Component.slider 0 100 1 (defaultOf schema) (labelOf schema)
              (infoOf schema))
      ∧ ∀ a b : Rat, t.tmin = some a → t.tmax = some b →
          get_component u nf schema
            = Component.slider a b 1 (defaultOf schema) (labelOf schema)
                (infoOf schema) := by
  constructor
  · intro h1 h2
    simp [get_component, hk, hn, h1, h2]
  · intro a b h1 h2
    simp [get_component, hk, hn, h1, h2]

/-- Example integer-range type with no declared bounds. -/
def tIR : ClickTypeInfo := ClickTypeInfo.mk "integer range" [] none none []

/-- Example integer-range argument with no declared bounds. -/
def pIR : ParamSchema :=
  ParamSchema.mk ["count"] false [] true none (ParamKind.plain tIR)

/-- Example integer-range type with bounds 5 and 9. -/
def tIRb : ClickTypeInfo :=
  ClickTypeInfo.mk "integer range" [] (some 5) (some 9) []

/-- Example integer-range argument with bounds 5 and 9. -/
def pIRb : ParamSchema :=
  ParamSchema.mk ["count"] false [] true none (ParamKind.plain tIRb)

/-- Witness for C9: the unbounded slider gets bounds 0 and 100 with step 1,
the bounded one gets exactly 5 and 9 with step 1. -/
theorem C9_integer_range_slider_witness :
    get_component "u" (fun _ => "now") pIR
        = Component.slider 0 100 1 none "count" none
      ∧ get_component "u" (fun _ => "now") pIRb
        = Component.slider 5 9 1 none "count" none := by
  constructor
  · exact (C9_integer_range_slider "u" (fun _ => "now") pIR tIR rfl rfl).1 rfl rfl
  · exact (C9_integer_range_slider "u" (fun _ => "now") pIRb tIRb rfl rfl).2
      5 9 rfl rfl

/-- Claim C10: applying the gui decorator to a bare command returns a fresh
unnamed group holding the original command followed by the launcher command
named by command_name, whose default is gui; applying it to a group
registers the launcher on that same group, leaving its name and its
registered commands otherwise unchanged. -/
theorem C10_gui_decorator :
    (∀ (cn n : String) (fl : Bool),
        gui_decorate cn (ClickApp.cmd n fl)
          = ClickApp.group none [ClickApp.cmd n fl, ClickApp.cmd cn true])
      ∧ (∀ (cn : String) (gn : Option String) (cmds : List ClickApp),
          gui_decorate cn (ClickApp.group gn cmds)
            = ClickApp.group gn (cmds ++ [ClickApp.cmd cn true]))
      ∧ guiDefaultCommandName = "gui" := by
  exact ⟨fun cn n fl => rfl, fun cn gn cmds => rfl, rfl⟩

end Guigaga
